import Mathlib

/-!
Shallow embedding of the lxgata Go package (LXCat/BOLSIG cross-section
loader and interpolation engine) and verification of its specification.

Floating-point numbers are modelled as rationals; the external
`strconv.ParseFloat` is modelled as a parameter `pf : String → Option ℚ`
(`none` corresponds to a parse error).  A line of input is a `String`;
the `bufio.Scanner` is modelled by the list of lines not yet consumed,
with the Go semantics that `Scan` at end of input leaves the current
text equal to `""`.
-/

namespace Lxgata

/-- The six process types of `CollisionType` in lxgata.go (a closed set of keywords). -/
inductive CollisionType where
  | ELASTIC
  | EFFECTIVE
  | EXCITATION
  | ATTACHMENT
  | IONIZATION
  | ROTATION
deriving DecidableEq

/-- Cross section point: value in m^2 at energy in eV (struct `CrossSectionPoint`). -/
structure CrossSectionPoint where
  Energy : ℚ
  Value : ℚ
deriving DecidableEq

/-- The `Collision` struct of lxgata.go (field `Type` is renamed `type`,
`Type` being reserved in Lean; the `Info` map is modelled as an association list). -/
structure Collision where
  type : CollisionType
  MassRatio : ℚ := 0
  Species : String := ""
  Data : List CrossSectionPoint := []
  Threshold : ℚ := 0
  StatWeightRatio : ℚ := 1
  LowerEnergy : ℚ := 0
  LowerStatWeight : ℚ := 0
  UpperEnergy : ℚ := 0
  UpperStatWeight : ℚ := 0
  Info : List (String × String) := []
deriving DecidableEq

/-- Go slice indexing `data[i]` (out of range yields a default; all verified
uses are in range). -/
def getP (data : List CrossSectionPoint) (i : Nat) : CrossSectionPoint :=
  data.getD i ⟨0, 0⟩

/-- The binary-search loop of `Collision.CrossSectionAt`:
`for c := (l+r)/2; l+1 < r; c = (l+r)/2 { if energy < Data[c].Energy { r = c } else { l = c } }`. -/
def bsLoop (data : List CrossSectionPoint) (energy : ℚ) (l r : Nat) : Nat × Nat :=
  if l + 1 < r then
    if energy < (getP data ((l + r) / 2)).Energy then
      bsLoop data energy l ((l + r) / 2)
    else
      bsLoop data energy ((l + r) / 2) r
  else (l, r)
termination_by r - l
decreasing_by
  · have hc : (l + r) / 2 < r := by
      rw [Nat.div_lt_iff_lt_mul (by norm_num)]
      omega
    omega
  · have hc : l + 1 ≤ (l + r) / 2 := by
      rw [Nat.le_div_iff_mul_le (by norm_num)]
      omega
    omega

/-- Method `Collision.CrossSectionAt` from lxgata.go: binary search, then either the
boundary value (when `l == 0 || r == len(Data)`) or linear interpolation. -/
def Collision.CrossSectionAt (p : Collision) (energy : ℚ) : ℚ :=
  let lr := bsLoop p.Data energy 0 p.Data.length
  if lr.1 = 0 ∨ lr.2 = p.Data.length then
    (getP p.Data lr.1).Value
  else
    (getP p.Data lr.1).Value + ((getP p.Data lr.2).Value - (getP p.Data lr.1).Value) *
      ((energy - (getP p.Data lr.1).Energy) /
        ((getP p.Data lr.2).Energy - (getP p.Data lr.1).Energy))

/-- The `Collisions` slice type of collisionSet.go. -/
abbrev Collisions := List Collision

/-- Method `Collisions.TotalCrossSectionAt`: running sum of `CrossSectionAt` over the set. -/
def Collisions.TotalCrossSectionAt (colls : Collisions) (energy : ℚ) : ℚ :=
  colls.foldl (fun result collision => result + collision.CrossSectionAt energy) 0

/-- Method `Collisions.TotalCrossSectionOfKindAt`: running sum restricted to collisions
whose type equals `t`. -/
def Collisions.TotalCrossSectionOfKindAt (colls : Collisions) (t : CollisionType)
    (energy : ℚ) : ℚ :=
  colls.foldl (fun result collision =>
    if collision.type = t then result + collision.CrossSectionAt energy else result) 0

/-- Method `Collisions.SurplusCrossSection`: sum over the set of the running maximum
(seeded with the float zero value) of each collision's data values. -/
def Collisions.SurplusCrossSection (colls : Collisions) : ℚ :=
  colls.foldl (fun result collision =>
    result + collision.Data.foldl
      (fun m csp => if m < csp.Value then csp.Value else m) 0) 0

/-- The input-quality assumption of the data model: the point table is ordered
by strictly increasing energy. -/
def SortedE (data : List CrossSectionPoint) : Prop :=
  data.Pairwise (fun a b => a.Energy < b.Energy)

instance (data : List CrossSectionPoint) : Decidable (SortedE data) := by
  unfold SortedE
  infer_instance

theorem getP_eq (data : List CrossSectionPoint) (i : Nat) (h : i < data.length) :
    getP data i = data[i] := by
  simp [getP, List.getD_eq_getElem?_getD, List.getElem?_eq_getElem h]

theorem getP_mem (data : List CrossSectionPoint) (i : Nat) (h : i < data.length) :
    getP data i ∈ data := by
  rw [getP_eq data i h]
  exact List.getElem_mem h

theorem sortedE_lt (data : List CrossSectionPoint) (hs : SortedE data) {i j : Nat}
    (hij : i < j) (hj : j < data.length) :
    (getP data i).Energy < (getP data j).Energy := by
  rw [SortedE, List.pairwise_iff_getElem] at hs
  rw [getP_eq data i (by omega), getP_eq data j hj]
  exact hs i j (by omega) hj hij

theorem sortedE_le (data : List CrossSectionPoint) (hs : SortedE data) {i j : Nat}
    (hij : i ≤ j) (hj : j < data.length) :
    (getP data i).Energy ≤ (getP data j).Energy := by
  rcases Nat.lt_or_ge i j with h | h
  · exact le_of_lt (sortedE_lt data hs h hj)
  · have : i = j := by omega
    rw [this]

/-- Invariant of the binary-search loop: starting from a window `[l, r)` whose
left end is `0` or lies at energy `≤ energy` and whose right end is the table
length or lies strictly above `energy`, the loop shrinks the window to an
adjacent pair satisfying the same invariants. -/
theorem bsLoop_spec (data : List CrossSectionPoint) (energy : ℚ) :
    ∀ (n l r : Nat), r - l ≤ n → l < r → r ≤ data.length →
    (l = 0 ∨ (getP data l).Energy ≤ energy) →
    (r = data.length ∨ energy < (getP data r).Energy) →
    ∃ l1, bsLoop data energy l r = (l1, l1 + 1) ∧ l ≤ l1 ∧ l1 + 1 ≤ r ∧
      (l1 = 0 ∨ (getP data l1).Energy ≤ energy) ∧
      (l1 + 1 = data.length ∨ energy < (getP data (l1 + 1)).Energy) := by
  intro n
  induction n with
  | zero =>
    intro l r hn hlr _ _ _
    omega
  | succ n ih =>
    intro l r hn hlr hrlen hl0 hr0
    rw [bsLoop]
    by_cases hstep : l + 1 < r
    · have hcl : l + 1 ≤ (l + r) / 2 := by
        rw [Nat.le_div_iff_mul_le (by norm_num)]
        omega
      have hcr : (l + r) / 2 < r := by
        rw [Nat.div_lt_iff_lt_mul (by norm_num)]
        omega
      simp only [if_pos hstep]
      by_cases hcmp : energy < (getP data ((l + r) / 2)).Energy
      · simp only [if_pos hcmp]
        obtain ⟨l1, heq, h1, h2, h3, h4⟩ :=
          ih l ((l + r) / 2) (by omega) (by omega) (by omega) hl0 (Or.inr hcmp)
        exact ⟨l1, heq, h1, by omega, h3, h4⟩
      · simp only [if_neg hcmp]
        obtain ⟨l1, heq, h1, h2, h3, h4⟩ :=
          ih ((l + r) / 2) r (by omega) (by omega) hrlen
            (Or.inr (le_of_not_lt hcmp)) hr0
        exact ⟨l1, heq, by omega, h2, h3, h4⟩
    · simp only [if_neg hstep]
      have : r = l + 1 := by omega
      subst this
      exact ⟨l, rfl, le_rfl, le_rfl, hl0, hr0⟩

/-- Convenient entry point of `bsLoop_spec` at the initial window `[0, length)`. -/
theorem bsLoop_run (p : Collision) (hne : p.Data ≠ []) (energy : ℚ) :
    ∃ l1, bsLoop p.Data energy 0 p.Data.length = (l1, l1 + 1) ∧
      l1 + 1 ≤ p.Data.length ∧
      (l1 = 0 ∨ (getP p.Data l1).Energy ≤ energy) ∧
      (l1 + 1 = p.Data.length ∨ energy < (getP p.Data (l1 + 1)).Energy) := by
  have hn : 0 < p.Data.length := List.length_pos.mpr hne
  obtain ⟨l1, heq, _, h2, h3, h4⟩ :=
    bsLoop_spec p.Data energy p.Data.length 0 p.Data.length (by omega) hn le_rfl
      (Or.inl rfl) (Or.inl rfl)
  exact ⟨l1, heq, h2, h3, h4⟩

/-- Left flat zone of `CrossSectionAt`: for a table of length 1, or whenever
the query energy is below the energy of the point at index 1, the result is the
value at index 0. -/
theorem csa_left (p : Collision) (hne : p.Data ≠ []) (hs : SortedE p.Data) (e : ℚ)
    (h : p.Data.length = 1 ∨ e < (getP p.Data 1).Energy) :
    p.CrossSectionAt e = (getP p.Data 0).Value := by
  obtain ⟨l1, heq, h2, h3, h4⟩ := bsLoop_run p hne e
  have hl1 : l1 = 0 := by
    rcases h with h | h
    · omega
    · by_contra hne0
      rcases h3 with h3 | h3
      · exact hne0 h3
      · have h1le : (getP p.Data 1).Energy ≤ (getP p.Data l1).Energy :=
          sortedE_le p.Data hs (by omega) (by omega)
        linarith
  subst hl1
  simp only [Collision.CrossSectionAt, heq]
  simp

/-- Right flat zone of `CrossSectionAt`: whenever the query energy is at or
above the last point's energy, the result is the last point's value. -/
theorem csa_right (p : Collision) (hne : p.Data ≠ []) (hs : SortedE p.Data) (e : ℚ)
    (h : (getP p.Data (p.Data.length - 1)).Energy ≤ e) :
    p.CrossSectionAt e = (getP p.Data (p.Data.length - 1)).Value := by
  have hn : 0 < p.Data.length := List.length_pos.mpr hne
  obtain ⟨l1, heq, h2, h3, h4⟩ := bsLoop_run p hne e
  have hr : l1 + 1 = p.Data.length := by
    rcases h4 with h4 | h4
    · exact h4
    · by_contra hner
      have hlast : (getP p.Data (l1 + 1)).Energy ≤ (getP p.Data (p.Data.length - 1)).Energy :=
        sortedE_le p.Data hs (by omega) (by omega)
      linarith
  have hl1 : l1 = p.Data.length - 1 := by omega
  subst hl1
  simp only [Collision.CrossSectionAt, heq]
  simp [hr]

/-- Interior zone of `CrossSectionAt`: when the query energy lies between the
energies at index 1 and at the last index, the result is the linear
interpolation over the bracketing pair `(l1, l1+1)` with `1 ≤ l1` and
`Data[l1].Energy ≤ e < Data[l1+1].Energy`. -/
theorem csa_mid (p : Collision) (hne : p.Data ≠ []) (hs : SortedE p.Data) (e : ℚ)
    (hn2 : 2 ≤ p.Data.length)
    (h1 : (getP p.Data 1).Energy ≤ e)
    (h2 : e < (getP p.Data (p.Data.length - 1)).Energy) :
    ∃ l1, 1 ≤ l1 ∧ l1 + 2 ≤ p.Data.length ∧
      (getP p.Data l1).Energy ≤ e ∧ e < (getP p.Data (l1 + 1)).Energy ∧
      p.CrossSectionAt e = (getP p.Data l1).Value +
        ((getP p.Data (l1 + 1)).Value - (getP p.Data l1).Value) *
          ((e - (getP p.Data l1).Energy) /
            ((getP p.Data (l1 + 1)).Energy - (getP p.Data l1).Energy)) := by
  obtain ⟨l1, heq, hr2, h3, h4⟩ := bsLoop_run p hne e
  have hl1pos : 1 ≤ l1 := by
    by_contra hl0
    have hl0 : l1 = 0 := by omega
    subst hl0
    rcases h4 with h4 | h4
    · omega
    · norm_num at h4
      linarith
  have hlt : l1 + 1 < p.Data.length := by
    by_contra hge
    have hl1eq : l1 = p.Data.length - 1 := by omega
    rcases h3 with h3 | h3
    · omega
    · rw [hl1eq] at h3
      linarith
  have hbl : (getP p.Data l1).Energy ≤ e := by
    rcases h3 with h3 | h3
    · omega
    · exact h3
  have hbr : e < (getP p.Data (l1 + 1)).Energy := by
    rcases h4 with h4 | h4
    · omega
    · exact h4
  refine ⟨l1, hl1pos, by omega, hbl, hbr, ?_⟩
  have hcond : ¬(l1 = 0 ∨ l1 + 1 = p.Data.length) := by
    push_neg
    omega
  simp only [Collision.CrossSectionAt, heq]
  simp [hcond]

/-- Bounds helper: for a non-empty strictly sorted table the interpolation
result always lies between any lower bound and any upper bound of the
tabulated values. -/
theorem csa_bounds_aux (p : Collision) (hne : p.Data ≠ []) (hs : SortedE p.Data)
    (e lo hi : ℚ) (hlo : ∀ x ∈ p.Data, lo ≤ x.Value) (hhi : ∀ x ∈ p.Data, x.Value ≤ hi) :
    lo ≤ p.CrossSectionAt e ∧ p.CrossSectionAt e ≤ hi := by
  have hn : 0 < p.Data.length := List.length_pos.mpr hne
  rcases Nat.lt_or_ge p.Data.length 2 with hn1 | hn2
  · have h1 : p.Data.length = 1 := by omega
    rw [csa_left p hne hs e (Or.inl h1)]
    have hm := getP_mem p.Data 0 (by omega)
    exact ⟨hlo _ hm, hhi _ hm⟩
  · rcases lt_or_le e (getP p.Data 1).Energy with hcase | hcase
    · rw [csa_left p hne hs e (Or.inr hcase)]
      have hm := getP_mem p.Data 0 (by omega)
      exact ⟨hlo _ hm, hhi _ hm⟩
    · rcases le_or_lt (getP p.Data (p.Data.length - 1)).Energy e with hcase2 | hcase2
      · rw [csa_right p hne hs e hcase2]
        have hm := getP_mem p.Data (p.Data.length - 1) (by omega)
        exact ⟨hlo _ hm, hhi _ hm⟩
      · obtain ⟨l1, hge1, hle, hbl, hbr, heq⟩ := csa_mid p hne hs e hn2 hcase hcase2
        rw [heq]
        have hEl : (getP p.Data l1).Energy < (getP p.Data (l1 + 1)).Energy :=
          sortedE_lt p.Data hs (by omega) (by omega)
        have hmL := getP_mem p.Data l1 (by omega)
        have hmR := getP_mem p.Data (l1 + 1) (by omega)
        have hVlLo := hlo _ hmL
        have hVrLo := hlo _ hmR
        have hVlHi := hhi _ hmL
        have hVrHi := hhi _ hmR
        set w := (e - (getP p.Data l1).Energy) /
            ((getP p.Data (l1 + 1)).Energy - (getP p.Data l1).Energy) with hw
        have hw0 : 0 ≤ w := div_nonneg (by linarith) (by linarith)
        have hw1 : w ≤ 1 := by
          rw [hw, div_le_one (by linarith)]
          linarith
        constructor
        · nlinarith [mul_nonneg (sub_nonneg.mpr hVlLo) (by linarith : (0:ℚ) ≤ 1 - w),
            mul_nonneg (sub_nonneg.mpr hVrLo) hw0]
        · nlinarith [mul_nonneg (sub_nonneg.mpr hVlHi) (by linarith : (0:ℚ) ≤ 1 - w),
            mul_nonneg (sub_nonneg.mpr hVrHi) hw0]

/-- Collision used to probe `CrossSectionAt` on the first interior segment. -/
def c1Collision : Collision :=
  { type := .IONIZATION, Data := [⟨0, 0⟩, ⟨1, 1⟩, ⟨2, 2⟩] }

/-- C1: refuted as stated.  For the strictly sorted table
`[(0,0), (1,1), (2,2)]` and the query energy `1/2`, which lies strictly
between the first and last tabulated energies with bracketing pair
`(l,r) = (0,1)`, `CrossSectionAt` returns the left value `0` (because the
binary search ends with `l = 0`, which the code conflates with
below-the-range), while the claimed interpolation formula
`value(l) + (value(r)-value(l)) * (energy-energy(l))/(energy(r)-energy(l))`
gives `1/2`. -/
theorem c1_first_segment_not_interpolated :
    c1Collision.CrossSectionAt (1/2) = 0 ∧
    c1Collision.Data = [⟨0, 0⟩, ⟨1, 1⟩, ⟨2, 2⟩] ∧
    (0 : ℚ) + ((1 : ℚ) - 0) * (((1 : ℚ)/2 - 0) / ((1 : ℚ) - 0)) = 1/2 ∧
    (0 : ℚ) ≠ 1/2 := by
  refine ⟨?_, rfl, by norm_num, by norm_num⟩
  have h := csa_left c1Collision (by decide) (by decide) (1/2)
    (Or.inr (by norm_num [c1Collision, getP]))
  simpa [c1Collision, getP] using h

/-- C2 (confirmed): constant extrapolation.  At or below the first tabulated
energy the first value is returned; at or above the last tabulated energy the
last value is returned; a length-1 table returns its single value for every
query energy. -/
theorem c2_constant_extrapolation (p : Collision) (hne : p.Data ≠ [])
    (hs : SortedE p.Data) (e : ℚ) :
    (e ≤ (getP p.Data 0).Energy → p.CrossSectionAt e = (getP p.Data 0).Value) ∧
    ((getP p.Data (p.Data.length - 1)).Energy ≤ e →
      p.CrossSectionAt e = (getP p.Data (p.Data.length - 1)).Value) ∧
    (p.Data.length = 1 → p.CrossSectionAt e = (getP p.Data 0).Value) := by
  have hn : 0 < p.Data.length := List.length_pos.mpr hne
  refine ⟨?_, fun h => csa_right p hne hs e h, fun h => csa_left p hne hs e (Or.inl h)⟩
  intro h
  rcases Nat.lt_or_ge p.Data.length 2 with hn1 | hn2
  · exact csa_left p hne hs e (Or.inl (by omega))
  · exact csa_left p hne hs e
      (Or.inr (lt_of_le_of_lt h (sortedE_lt p.Data hs (by omega) (by omega))))

/-- Concrete collision for the C2 witness. -/
def c2Collision : Collision := { type := .ELASTIC, Data := [⟨1, 2⟩, ⟨3, 6⟩] }

/-- Witness for C2: beyond the last tabulated energy the last value is returned. -/
theorem c2_constant_extrapolation_witness : c2Collision.CrossSectionAt 7 = 6 := by
  have h := (c2_constant_extrapolation c2Collision (by decide) (by decide) 7).2.1
    (by norm_num [c2Collision, getP])
  simpa [c2Collision, getP] using h

/-- C10 (confirmed): for a non-empty strictly sorted table, the result of
`CrossSectionAt` at any energy lies between any lower bound and any upper bound
of the tabulated values (hence between their minimum and maximum, and it is
non-negative whenever all values are). -/
theorem c10_result_bounds (p : Collision) (hne : p.Data ≠ []) (hs : SortedE p.Data)
    (e lo hi : ℚ) (hlo : ∀ x ∈ p.Data, lo ≤ x.Value) (hhi : ∀ x ∈ p.Data, x.Value ≤ hi) :
    lo ≤ p.CrossSectionAt e ∧ p.CrossSectionAt e ≤ hi :=
  csa_bounds_aux p hne hs e lo hi hlo hhi

/-- Concrete collision for the C10 witness. -/
def c10Collision : Collision := { type := .EXCITATION, Data := [⟨1, 2⟩, ⟨3, 6⟩, ⟨5, 4⟩] }

/-- Witness for C10 at a concrete collision, interior energy and bounds. -/
theorem c10_result_bounds_witness :
    (2 : ℚ) ≤ c10Collision.CrossSectionAt 4 ∧ c10Collision.CrossSectionAt 4 ≤ 6 :=
  c10_result_bounds c10Collision (by decide) (by decide) 4 2 6 (by decide) (by decide)

theorem foldl_add_sum {α : Type} (F : α → ℚ) :
    ∀ (xs : List α) (a : ℚ),
    xs.foldl (fun acc x => acc + F x) a = a + (xs.map F).sum := by
  intro xs
  induction xs with
  | nil => intro a; simp
  | cons x xs ih =>
    intro a
    simp only [List.foldl_cons, List.map_cons, List.sum_cons]
    rw [ih]
    ring

theorem foldl_add_if_sum (P : Collision → Prop) [DecidablePred P] (F : Collision → ℚ) :
    ∀ (xs : List Collision) (a : ℚ),
    xs.foldl (fun acc x => if P x then acc + F x else acc) a
      = a + ((xs.filter (fun x => decide (P x))).map F).sum := by
  intro xs
  induction xs with
  | nil => intro a; simp
  | cons x xs ih =>
    intro a
    by_cases hx : P x
    · simp [hx, ih]
      ring
    · simp [hx, ih]

/-- C5 (confirmed): `TotalCrossSectionAt` is the sum of `CrossSectionAt` over
the collection, and `TotalCrossSectionOfKindAt` is the same sum restricted to
the collisions of the given type. -/
theorem c5_additivity (colls : Collisions) (t : CollisionType) (e : ℚ) :
    Collisions.TotalCrossSectionAt colls e
        = (colls.map (fun c => c.CrossSectionAt e)).sum ∧
    Collisions.TotalCrossSectionOfKindAt colls t e
        = ((colls.filter (fun c => decide (c.type = t))).map
            (fun c => c.CrossSectionAt e)).sum := by
  constructor
  · rw [Collisions.TotalCrossSectionAt,
      foldl_add_sum (fun c => c.CrossSectionAt e) colls 0, zero_add]
  · rw [Collisions.TotalCrossSectionOfKindAt,
      foldl_add_if_sum (fun c => c.type = t) (fun c => c.CrossSectionAt e) colls 0, zero_add]

/-- Specification-side reading of the maximum value observed anywhere in a
point table (seeded with the float zero value, as the Go accumulator is). -/
def dataMaxSpec (data : List CrossSectionPoint) : ℚ :=
  (data.map CrossSectionPoint.Value).foldr max 0

theorem foldr_max_shift : ∀ (l : List ℚ) (a b : ℚ),
    l.foldr max (max a b) = max a (l.foldr max b) := by
  intro l
  induction l with
  | nil => intro a b; rfl
  | cons c l ih =>
    intro a b
    simp only [List.foldr_cons, ih]
    rw [max_left_comm]

theorem goMax_eq : ∀ (data : List CrossSectionPoint) (m : ℚ),
    data.foldl (fun m csp => if m < csp.Value then csp.Value else m) m
      = (data.map CrossSectionPoint.Value).foldr max m := by
  intro data
  induction data with
  | nil => intro m; rfl
  | cons x xs ih =>
    intro m
    simp only [List.foldl_cons, List.map_cons, List.foldr_cons]
    have hmax : (if m < x.Value then x.Value else m) = max x.Value m := by
      rcases le_or_lt x.Value m with h | h
      · rw [if_neg (not_lt.mpr h), max_eq_right h]
      · rw [if_pos h, max_eq_left (le_of_lt h)]
    rw [hmax, ih, ← foldr_max_shift]

theorem dataMax_ub (data : List CrossSectionPoint) :
    ∀ x ∈ data, x.Value ≤ dataMaxSpec data := by
  induction data with
  | nil => intro x hx; exact absurd hx (List.not_mem_nil x)
  | cons y ys ih =>
    intro x hx
    have hstep : dataMaxSpec (y :: ys) = max y.Value (dataMaxSpec ys) := by
      simp [dataMaxSpec]
    rw [hstep]
    rcases List.mem_cons.mp hx with hx | hx
    · rw [hx]
      exact le_max_left _ _
    · exact le_trans (ih x hx) (le_max_right _ _)

theorem dataMax_mem (data : List CrossSectionPoint) (hne : data ≠ [])
    (hnn : ∀ x ∈ data, 0 ≤ x.Value) :
    dataMaxSpec data ∈ data.map CrossSectionPoint.Value := by
  induction data with
  | nil => exact absurd rfl hne
  | cons y ys ih =>
    have hstep : dataMaxSpec (y :: ys) = max y.Value (dataMaxSpec ys) := by
      simp [dataMaxSpec]
    rw [hstep, List.map_cons]
    rcases eq_or_ne ys [] with hys | hys
    · subst hys
      have h0 : 0 ≤ y.Value := hnn y (by simp)
      have hz : dataMaxSpec ([] : List CrossSectionPoint) = 0 := rfl
      rw [hz, max_eq_left h0]
      simp
    · have hih := ih hys (fun x hx => hnn x (List.mem_cons_of_mem y hx))
      rcases le_total (dataMaxSpec ys) y.Value with hcmp | hcmp
      · rw [max_eq_left hcmp]
        exact List.mem_cons_self _ _
      · rw [max_eq_right hcmp]
        exact List.mem_cons_of_mem _ hih

/-- C6 (confirmed): `SurplusCrossSection` equals the sum over the collection of
the maximum value in each collision's point table (the maximum is attained, i.e.
a member of the table's values), and it is an energy-independent upper bound on
`TotalCrossSectionAt`. -/
theorem c6_surplus_majorant (colls : Collisions)
    (h : ∀ c ∈ colls, c.Data ≠ [] ∧ SortedE c.Data ∧ ∀ x ∈ c.Data, 0 ≤ x.Value) :
    Collisions.SurplusCrossSection colls
        = (colls.map (fun c => dataMaxSpec c.Data)).sum ∧
    (∀ c ∈ colls, dataMaxSpec c.Data ∈ c.Data.map CrossSectionPoint.Value) ∧
    (∀ e, Collisions.TotalCrossSectionAt colls e
        ≤ Collisions.SurplusCrossSection colls) := by
  have hsum : Collisions.SurplusCrossSection colls
      = (colls.map (fun c => dataMaxSpec c.Data)).sum := by
    rw [Collisions.SurplusCrossSection]
    have hfun : (fun (result : ℚ) (collision : Collision) =>
        result + collision.Data.foldl
          (fun m csp => if m < csp.Value then csp.Value else m) 0)
        = fun result collision => result + dataMaxSpec collision.Data := by
      funext result collision
      rw [goMax_eq collision.Data 0]
      rfl
    rw [hfun, foldl_add_sum (fun c => dataMaxSpec c.Data) colls 0, zero_add]
  refine ⟨hsum, fun c hc => dataMax_mem c.Data (h c hc).1 (h c hc).2.2, fun e => ?_⟩
  rw [hsum, Collisions.TotalCrossSectionAt,
    foldl_add_sum (fun c => c.CrossSectionAt e) colls 0, zero_add]
  apply List.sum_le_sum
  intro c hc
  exact (csa_bounds_aux c (h c hc).1 (h c hc).2.1 e 0 (dataMaxSpec c.Data)
    (h c hc).2.2 (dataMax_ub c.Data)).2

/-- Concrete collection for the C6 witness. -/
def c6Collection : Collisions :=
  [{ type := .ELASTIC, Data := [⟨1, 2⟩, ⟨3, 6⟩] },
   { type := .IONIZATION, Data := [⟨0, 1⟩] }]

/-- Witness for C6: the surplus bound evaluated on a concrete collection and energy. -/
theorem c6_surplus_majorant_witness :
    Collisions.TotalCrossSectionAt c6Collection 2
      ≤ Collisions.SurplusCrossSection c6Collection :=
  (c6_surplus_majorant c6Collection (by decide)).2.2 2

/-! ### The format parser (`LoadCrossSections` of collisionSet.go)

String primitives are modelled on the character list underlying a `String`
(whitespace is the ASCII whitespace that can occur on a scanned line).  The
`bufio.Scanner` is the list of lines not yet consumed; `Scan` at end of input
returns the empty string for the current text, as in Go. -/

/-- Whitespace recognised by `strings.Fields`. -/
def isSpc (c : Char) : Bool :=
  c = ' ' || c = '\t' || c = '\n' || c = '\r'

/-- Accumulating worker for `fields` (current partially read token is `acc`,
held reversed). -/
def fieldsGo : List Char → List Char → List (List Char)
  | acc, [] => if acc = [] then [] else [acc.reverse]
  | acc, c :: cs =>
    if isSpc c then
      if acc = [] then fieldsGo [] cs else acc.reverse :: fieldsGo [] cs
    else fieldsGo (c :: acc) cs

/-- Function `strings.Fields`: whitespace-separated tokens of a line. -/
def fields (s : String) : List String :=
  (fieldsGo [] s.data).map String.mk

/-- Test `strings.HasPrefix(s, "-----")`. -/
def startsDashes (s : String) : Bool :=
  match s.data with
  | '-' :: '-' :: '-' :: '-' :: '-' :: _ => true
  | _ => false

/-- Characters before the first occurrence of `sep` (the first component of
`strings.Cut`). -/
def takeUntilChar : List Char → Char → List Char
  | [], _ => []
  | c :: cs, sep => if c = sep then [] else c :: takeUntilChar cs sep

/-- First component of `strings.Cut(s, sep)` for a one-character separator. -/
def cutBefore (s : String) (sep : Char) : String :=
  String.mk (takeUntilChar s.data sep)

/-- Split at the first occurrence of `sep`; `none` when `sep` does not occur
(the `found` flag of `strings.Cut`). -/
def breakAtChar : List Char → Char → Option (List Char × List Char)
  | [], _ => none
  | c :: cs, sep =>
    if c = sep then some ([], cs)
    else
      match breakAtChar cs sep with
      | none => none
      | some (a, b) => some (c :: a, b)

/-- Function `strings.Cut(s, sep)` for a one-character separator, as an `Option`. -/
def goCut (s : String) (sep : Char) : Option (String × String) :=
  (breakAtChar s.data sep).map (fun ab => (String.mk ab.1, String.mk ab.2))

/-- Function `strings.Trim(s, " ")`: strip leading and trailing space characters. -/
def trimSpaces (s : String) : String :=
  String.mk (((s.data.dropWhile (fun c => c = ' ')).reverse.dropWhile
    (fun c => c = ' ')).reverse)

/-- Insertion into the `Info` map (`map[string]string` with last-write-wins). -/
def insertInfo (m : List (String × String)) (k v : String) : List (String × String) :=
  (m.filter (fun kv => kv.1 ≠ k)) ++ [(k, v)]

/-- Membership of a token in the `setProcessTypes` keyword set of
`LoadCrossSections`, returning the recognised type. -/
def typeOfKeyword (s : String) : Option CollisionType :=
  if s = "ELASTIC" then some .ELASTIC
  else if s = "EFFECTIVE" then some .EFFECTIVE
  else if s = "EXCITATION" then some .EXCITATION
  else if s = "ATTACHMENT" then some .ATTACHMENT
  else if s = "IONIZATION" then some .IONIZATION
  else if s = "ROTATION" then some .ROTATION
  else none

/-- Call of `scanner.Scan()` followed by `scanner.Text()`: the next line and the lines
after it; at end of input the text is the empty string. -/
def scanStep : List String → String × List String
  | [] => ("", [])
  | line :: ls => (line, ls)

/-- The metadata loop of `LoadCrossSections` (lines 94-102 of collisionSet.go):
consume `key: value` lines until a five-dash line, then consume that line too.
Returns `none` when end of input is reached before a five-dash line, in which
case the Go loop iterates forever (at EOF the current text stays `""`). -/
def infoLoop : String → List String → List (String × String) →
    Option (List (String × String) × String × List String)
  | text, rest, info =>
    if startsDashes text then
      match rest with
      | [] => some (info, "", [])
      | line :: ls => some (info, line, ls)
    else
      let info1 := match goCut text ':' with
        | some kv => insertInfo info (trimSpaces kv.1) (trimSpaces kv.2)
        | none => info
      match rest with
      | [] => none
      | line :: ls => infoLoop line ls info1

/-- Outcome of the data-section loop: parsed points plus remaining lines, a
`ParseFloat` error (Go `return nil, err`), or a runtime panic (index out of
range on a line with fewer than two fields, including the empty text produced
at end of input). -/
inductive DataRes where
  | dok (data : List CrossSectionPoint) (rest : List String)
  | derr
  | dpanic
deriving DecidableEq

/-- The data-section loop of `LoadCrossSections` (lines 104-120): parse
`energy value` lines until a five-dash line (left unconsumed), keeping a point
only when the type is not threshold-bearing or `threshold < energy`. -/
def dataLoop (pf : String → Option ℚ) (t : CollisionType) (threshold : ℚ) :
    String → List String → List CrossSectionPoint → DataRes
  | text, rest, data =>
    if startsDashes text then .dok data rest
    else
      match (fields text)[0]? with
      | none => .dpanic
      | some f0 =>
        match pf f0 with
        | none => .derr
        | some energy =>
          match (fields text)[1]? with
          | none => .dpanic
          | some f1 =>
            match pf f1 with
            | none => .derr
            | some crossSection =>
              let data1 :=
                if ¬(t = .IONIZATION ∨ t = .EXCITATION ∨ t = .ROTATION)
                    ∨ threshold < energy then
                  data ++ [⟨energy, crossSection⟩]
                else data
              match rest with
              | [] => .dpanic
              | line :: ls => dataLoop pf t threshold line ls data1

/-- Outcome of parsing one process block: a collision plus remaining lines, a
`ParseFloat` error, a runtime panic, or non-termination of the metadata loop. -/
inductive BlockRes where
  | bok (c : Collision) (rest : List String)
  | berr
  | bpanic
  | bhang
deriving DecidableEq

/-- Tail of a process block after the per-type parameters have been read:
metadata loop, the `scanner.Scan()` after it, data loop, the zero-value
prepend (which indexes `data[0]`, panicking on an empty slice for
threshold-bearing types), and construction of the `Collision`. -/
def finishBlock (pf : String → Option ℚ) (t : CollisionType)
    (massRatio threshold statWeightRatio lowerEnergy lowerStatWeight
      upperEnergy upperStatWeight : ℚ)
    (species : String) (text : String) (rest : List String) : BlockRes :=
  match infoLoop text rest [] with
  | none => .bhang
  | some (info, text2, rest2) =>
    match dataLoop pf t threshold text2 rest2 [] with
    | .derr => .berr
    | .dpanic => .bpanic
    | .dok data rest3 =>
      if t = .IONIZATION ∨ t = .EXCITATION ∨ t = .ROTATION then
        match data with
        | [] => .bpanic
        | d0 :: tl =>
          let data1 := if d0.Value > 0 then ⟨threshold, 0⟩ :: d0 :: tl else d0 :: tl
          .bok { type := t, MassRatio := massRatio, Species := species,
                 Data := data1, Threshold := threshold,
                 StatWeightRatio := statWeightRatio, LowerEnergy := lowerEnergy,
                 LowerStatWeight := lowerStatWeight, UpperEnergy := upperEnergy,
                 UpperStatWeight := upperStatWeight, Info := info } rest3
      else
        .bok { type := t, MassRatio := massRatio, Species := species,
               Data := data, Threshold := threshold,
               StatWeightRatio := statWeightRatio, LowerEnergy := lowerEnergy,
               LowerStatWeight := lowerStatWeight, UpperEnergy := upperEnergy,
               UpperStatWeight := upperStatWeight, Info := info } rest3

/-- Parsing of one recognised process block (the body of the keyword branch of
`LoadCrossSections`): species line, parameter line (with the per-type switch,
`ROTATION` consuming a second parameter line), then `finishBlock`.  Indexing a
missing parameter is a panic; a failed `ParseFloat` is an error. -/
def parseBlock (pf : String → Option ℚ) (t : CollisionType)
    (rest0 : List String) : BlockRes :=
  let s1 := scanStep rest0
  let species := cutBefore s1.1 ' '
  let s2 := scanStep s1.2
  let parameters := fields (trimSpaces s2.1)
  match t with
  | .ELASTIC =>
    match parameters[0]? with
    | none => .bpanic
    | some p0 =>
      match pf p0 with
      | none => .berr
      | some massRatio =>
        finishBlock pf t massRatio 0 1 0 0 0 0 species s2.1 s2.2
  | .EFFECTIVE =>
    match parameters[0]? with
    | none => .bpanic
    | some p0 =>
      match pf p0 with
      | none => .berr
      | some massRatio =>
        finishBlock pf t massRatio 0 1 0 0 0 0 species s2.1 s2.2
  | .EXCITATION =>
    match parameters[0]? with
    | none => .bpanic
    | some p0 =>
      match pf p0 with
      | none => .berr
      | some threshold =>
        if parameters.length > 1 then
          match parameters[1]? with
          | none => .bpanic
          | some p1 =>
            match pf p1 with
            | none => .berr
            | some statWeightRatio =>
              finishBlock pf t 0 threshold statWeightRatio 0 0 0 0 species s2.1 s2.2
        else
          finishBlock pf t 0 threshold 1 0 0 0 0 species s2.1 s2.2
  | .IONIZATION =>
    match parameters[0]? with
    | none => .bpanic
    | some p0 =>
      match pf p0 with
      | none => .berr
      | some threshold =>
        finishBlock pf t 0 threshold 1 0 0 0 0 species s2.1 s2.2
  | .ATTACHMENT =>
    finishBlock pf t 0 0 1 0 0 0 0 species s2.1 s2.2
  | .ROTATION =>
    match parameters[0]? with
    | none => .bpanic
    | some p0 =>
      match pf p0 with
      | none => .berr
      | some lowerEnergy =>
        match parameters[1]? with
        | none => .bpanic
        | some p1 =>
          match pf p1 with
          | none => .berr
          | some lowerStatWeight =>
            let s3 := scanStep s2.2
            let parameters2 := fields s3.1
            match parameters2[0]? with
            | none => .bpanic
            | some q0 =>
              match pf q0 with
              | none => .berr
              | some upperEnergy =>
                match parameters2[1]? with
                | none => .bpanic
                | some q1 =>
                  match pf q1 with
                  | none => .berr
                  | some upperStatWeight =>
                    finishBlock pf t 0 0 1 lowerEnergy lowerStatWeight
                      upperEnergy upperStatWeight species s3.1 s3.2

theorem scanStep_rest_le (rest : List String) :
    (scanStep rest).2.length ≤ rest.length := by
  cases rest <;> simp [scanStep]

theorem infoLoop_rest_le :
    ∀ (rest : List String) (text : String) (info i2 : List (String × String))
      (t2 : String) (r2 : List String),
    infoLoop text rest info = some (i2, t2, r2) → r2.length ≤ rest.length := by
  intro rest
  induction rest with
  | nil =>
    intro text info i2 t2 r2 h
    rw [infoLoop] at h
    split at h
    · cases h
      simp
    · cases h
  | cons line ls ih =>
    intro text info i2 t2 r2 h
    rw [infoLoop] at h
    split at h
    · cases h
      simp
    · have := ih line _ i2 t2 r2 h
      simp
      omega

theorem dataLoop_rest_le (pf : String → Option ℚ) (t : CollisionType) (threshold : ℚ) :
    ∀ (rest : List String) (text : String) (data out : List CrossSectionPoint)
      (r2 : List String),
    dataLoop pf t threshold text rest data = .dok out r2 → r2.length ≤ rest.length := by
  intro rest
  induction rest with
  | nil =>
    intro text data out r2 h
    rw [dataLoop] at h
    split at h
    · cases h
      simp
    · split at h
      · cases h
      · split at h
        · cases h
        · split at h
          · cases h
          · split at h
            · cases h
            · cases h
  | cons line ls ih =>
    intro text data out r2 h
    rw [dataLoop] at h
    split at h
    · cases h
      simp
    · split at h
      · cases h
      · split at h
        · cases h
        · split at h
          · cases h
          · split at h
            · cases h
            · have := ih line _ out r2 h
              simp
              omega

theorem finishBlock_rest_le (pf : String → Option ℚ) (t : CollisionType)
    (massRatio threshold statWeightRatio lowerEnergy lowerStatWeight
      upperEnergy upperStatWeight : ℚ)
    (species text : String) (rest : List String) (c : Collision) (r2 : List String)
    (h : finishBlock pf t massRatio threshold statWeightRatio lowerEnergy
      lowerStatWeight upperEnergy upperStatWeight species text rest = .bok c r2) :
    r2.length ≤ rest.length := by
  rw [finishBlock] at h
  cases hi : infoLoop text rest [] with
  | none =>
    rw [hi] at h
    cases h
  | some v =>
    obtain ⟨info, text2, rest2⟩ := v
    rw [hi] at h
    dsimp only at h
    have h1 := infoLoop_rest_le rest text [] info text2 rest2 hi
    cases hd : dataLoop pf t threshold text2 rest2 [] with
    | derr =>
      rw [hd] at h
      cases h
    | dpanic =>
      rw [hd] at h
      cases h
    | dok data rest3 =>
      rw [hd] at h
      dsimp only at h
      have h2 := dataLoop_rest_le pf t threshold rest2 text2 [] data rest3 hd
      split at h
      · match data, h with
        | d0 :: tl, h =>
          cases h
          omega
      · cases h
        omega

theorem parseBlock_rest_le (pf : String → Option ℚ) (t : CollisionType)
    (rest0 : List String) (c : Collision) (r2 : List String)
    (h : parseBlock pf t rest0 = .bok c r2) : r2.length ≤ rest0.length := by
  have hs1 : (scanStep rest0).2.length ≤ rest0.length := scanStep_rest_le rest0
  have hs2 : (scanStep (scanStep rest0).2).2.length ≤ (scanStep rest0).2.length :=
    scanStep_rest_le _
  have hs3 : (scanStep (scanStep (scanStep rest0).2).2).2.length
      ≤ (scanStep (scanStep rest0).2).2.length := scanStep_rest_le _
  cases t <;> simp only [parseBlock] at h <;>
    (repeat' split at h) <;>
    first
    | cases h
    | (have hfb := finishBlock_rest_le _ _ _ _ _ _ _ _ _ _ _ _ _ _ h; omega)

/-- Outcome of `LoadCrossSections`: the collection (`ok`), an error return
(`err`, Go's `return nil, err` — no part of the collection is kept), a runtime panic, or
non-termination. -/
inductive LoadResult where
  | ok (colls : List Collision)
  | err
  | panics
  | hangs
deriving DecidableEq

/-- The top-level scanning loop of `LoadCrossSections`: pop a line, ignore it
unless its first token is a process-type keyword, otherwise parse a block and
append the resulting collision. -/
def loadLoop (pf : String → Option ℚ) : List Collision → List String → LoadResult
  | colls, [] => .ok colls
  | colls, line :: ls =>
    match (fields line)[0]? with
    | none => loadLoop pf colls ls
    | some tok =>
      match typeOfKeyword tok with
      | none => loadLoop pf colls ls
      | some t =>
        match hpb : parseBlock pf t ls with
        | .bok c rest2 => loadLoop pf (colls ++ [c]) rest2
        | .berr => .err
        | .bpanic => .panics
        | .bhang => .hangs
termination_by _ rest => rest.length
decreasing_by
  · simp
  · have := parseBlock_rest_le pf t ls c rest2 hpb
    simp
    omega

/-- Function `LoadCrossSections` over a list of input lines, parameterised by the model
`pf` of `strconv.ParseFloat`. -/
def LoadCrossSections (pf : String → Option ℚ) (lines : List String) : LoadResult :=
  loadLoop pf [] lines

/-- Concrete instance of the `ParseFloat` parameter used in witnesses: accepts
non-empty strings of decimal digits. -/
def natQ? (s : String) : Option ℚ :=
  if s.data ≠ [] ∧ s.data.all Char.isDigit then
    some ((s.data.foldl (fun n c => n * 10 + (c.toNat - 48)) 0 : ℕ) : ℚ)
  else none

theorem natQ?_nonneg : ∀ s q, natQ? s = some q → 0 ≤ q := by
  intro s q h
  rw [natQ?] at h
  split at h
  · cases h
    exact Nat.cast_nonneg _
  · cases h

theorem loadLoop_nil (pf : String → Option ℚ) (colls : List Collision) :
    loadLoop pf colls [] = .ok colls := by
  rw [loadLoop]

theorem loadLoop_block_ok (pf : String → Option ℚ) (colls : List Collision)
    (line : String) (ls : List String) (tok : String) (t : CollisionType)
    (c : Collision) (rest2 : List String)
    (h1 : (fields line)[0]? = some tok) (h2 : typeOfKeyword tok = some t)
    (h3 : parseBlock pf t ls = .bok c rest2) :
    loadLoop pf colls (line :: ls) = loadLoop pf (colls ++ [c]) rest2 := by
  rw [loadLoop, h1]
  dsimp only
  rw [h2]
  dsimp only
  split <;> simp_all

theorem loadLoop_block_err (pf : String → Option ℚ) (colls : List Collision)
    (line : String) (ls : List String) (tok : String) (t : CollisionType)
    (h1 : (fields line)[0]? = some tok) (h2 : typeOfKeyword tok = some t)
    (h3 : parseBlock pf t ls = .berr) :
    loadLoop pf colls (line :: ls) = .err := by
  rw [loadLoop, h1]
  dsimp only
  rw [h2]
  dsimp only
  split <;> simp_all

theorem loadLoop_block_panic (pf : String → Option ℚ) (colls : List Collision)
    (line : String) (ls : List String) (tok : String) (t : CollisionType)
    (h1 : (fields line)[0]? = some tok) (h2 : typeOfKeyword tok = some t)
    (h3 : parseBlock pf t ls = .bpanic) :
    loadLoop pf colls (line :: ls) = .panics := by
  rw [loadLoop, h1]
  dsimp only
  rw [h2]
  dsimp only
  split <;> simp_all

theorem loadLoop_block_hang (pf : String → Option ℚ) (colls : List Collision)
    (line : String) (ls : List String) (tok : String) (t : CollisionType)
    (h1 : (fields line)[0]? = some tok) (h2 : typeOfKeyword tok = some t)
    (h3 : parseBlock pf t ls = .bhang) :
    loadLoop pf colls (line :: ls) = .hangs := by
  rw [loadLoop, h1]
  dsimp only
  rw [h2]
  dsimp only
  split <;> simp_all

/-- Every collision in a successful `loadLoop` result either was in the
accumulator already or is the output of some successful `parseBlock`. -/
theorem loadLoop_mem (pf : String → Option ℚ) :
    ∀ (n : Nat) (rest : List String) (colls out : List Collision),
    rest.length ≤ n → loadLoop pf colls rest = .ok out →
    ∀ c ∈ out, c ∈ colls ∨ ∃ t rs r2, parseBlock pf t rs = .bok c r2 := by
  intro n
  induction n with
  | zero =>
    intro rest colls out hn h c hc
    have : rest = [] := List.length_eq_zero.mp (by omega)
    subst this
    rw [loadLoop_nil] at h
    cases h
    exact Or.inl hc
  | succ n ih =>
    intro rest colls out hn h c hc
    match rest with
    | [] =>
      rw [loadLoop_nil] at h
      cases h
      exact Or.inl hc
    | line :: ls =>
      rw [loadLoop] at h
      cases hf : (fields line)[0]? with
      | none =>
        rw [hf] at h
        dsimp only at h
        exact ih ls colls out (by simp at hn; omega) h c hc
      | some tok =>
        rw [hf] at h
        dsimp only at h
        cases htk : typeOfKeyword tok with
        | none =>
          rw [htk] at h
          dsimp only at h
          exact ih ls colls out (by simp at hn; omega) h c hc
        | some t =>
          rw [htk] at h
          dsimp only at h
          split at h
          next c2 rest2 heq =>
            have hlen : rest2.length ≤ ls.length := parseBlock_rest_le pf t ls c2 rest2 heq
            have hrec := ih rest2 (colls ++ [c2]) out (by simp at hn; omega) h c hc
            rcases hrec with hmem | hpb
            · rcases List.mem_append.mp hmem with hmem | hmem
              · exact Or.inl hmem
              · have hcc : c = c2 := by simpa using hmem
                subst hcc
                exact Or.inr ⟨t, ls, rest2, heq⟩
            · exact Or.inr hpb
          next => cases h
          next => cases h
          next => cases h

/-- Values accumulated by the data loop are non-negative when the float parser
only produces non-negative values. -/
theorem dataLoop_val_nonneg (pf : String → Option ℚ)
    (hpf : ∀ s q, pf s = some q → 0 ≤ q) (t : CollisionType) (threshold : ℚ) :
    ∀ (rest : List String) (text : String) (data out : List CrossSectionPoint)
      (r2 : List String),
    (∀ x ∈ data, 0 ≤ x.Value) →
    dataLoop pf t threshold text rest data = .dok out r2 →
    ∀ x ∈ out, 0 ≤ x.Value := by
  intro rest
  induction rest with
  | nil =>
    intro text data out r2 hacc h
    rw [dataLoop] at h
    split at h
    · cases h
      exact hacc
    · cases hf0 : (fields text)[0]? with
      | none => rw [hf0] at h; cases h
      | some f0 =>
        rw [hf0] at h
        dsimp only at h
        cases hE : pf f0 with
        | none => rw [hE] at h; cases h
        | some energy =>
          rw [hE] at h
          dsimp only at h
          cases hf1 : (fields text)[1]? with
          | none => rw [hf1] at h; cases h
          | some f1 =>
            rw [hf1] at h
            dsimp only at h
            cases hV : pf f1 with
            | none => rw [hV] at h; cases h
            | some crossSection =>
              rw [hV] at h
              dsimp only at h
              cases h
  | cons line ls ih =>
    intro text data out r2 hacc h
    rw [dataLoop] at h
    split at h
    · cases h
      exact hacc
    · cases hf0 : (fields text)[0]? with
      | none => rw [hf0] at h; cases h
      | some f0 =>
        rw [hf0] at h
        dsimp only at h
        cases hE : pf f0 with
        | none => rw [hE] at h; cases h
        | some energy =>
          rw [hE] at h
          dsimp only at h
          cases hf1 : (fields text)[1]? with
          | none => rw [hf1] at h; cases h
          | some f1 =>
            rw [hf1] at h
            dsimp only at h
            cases hV : pf f1 with
            | none => rw [hV] at h; cases h
            | some crossSection =>
              rw [hV] at h
              dsimp only at h
              refine ih line _ out r2 ?_ h
              intro x hx
              split at hx
              · rcases List.mem_append.mp hx with hx | hx
                · exact hacc x hx
                · have hx1 : x = ⟨energy, crossSection⟩ := by simpa using hx
                  rw [hx1]
                  exact hpf f1 crossSection hV
              · exact hacc x hx

/-- For threshold-bearing types, every point accumulated by the data loop has
energy strictly above the threshold. -/
theorem dataLoop_energy_gt (pf : String → Option ℚ) (t : CollisionType)
    (threshold : ℚ)
    (ht : t = .IONIZATION ∨ t = .EXCITATION ∨ t = .ROTATION) :
    ∀ (rest : List String) (text : String) (data out : List CrossSectionPoint)
      (r2 : List String),
    (∀ x ∈ data, threshold < x.Energy) →
    dataLoop pf t threshold text rest data = .dok out r2 →
    ∀ x ∈ out, threshold < x.Energy := by
  intro rest
  induction rest with
  | nil =>
    intro text data out r2 hacc h
    rw [dataLoop] at h
    split at h
    · cases h
      exact hacc
    · cases hf0 : (fields text)[0]? with
      | none => rw [hf0] at h; cases h
      | some f0 =>
        rw [hf0] at h
        dsimp only at h
        cases hE : pf f0 with
        | none => rw [hE] at h; cases h
        | some energy =>
          rw [hE] at h
          dsimp only at h
          cases hf1 : (fields text)[1]? with
          | none => rw [hf1] at h; cases h
          | some f1 =>
            rw [hf1] at h
            dsimp only at h
            cases hV : pf f1 with
            | none => rw [hV] at h; cases h
            | some crossSection =>
              rw [hV] at h
              dsimp only at h
              cases h
  | cons line ls ih =>
    intro text data out r2 hacc h
    rw [dataLoop] at h
    split at h
    · cases h
      exact hacc
    · cases hf0 : (fields text)[0]? with
      | none => rw [hf0] at h; cases h
      | some f0 =>
        rw [hf0] at h
        dsimp only at h
        cases hE : pf f0 with
        | none => rw [hE] at h; cases h
        | some energy =>
          rw [hE] at h
          dsimp only at h
          cases hf1 : (fields text)[1]? with
          | none => rw [hf1] at h; cases h
          | some f1 =>
            rw [hf1] at h
            dsimp only at h
            cases hV : pf f1 with
            | none => rw [hV] at h; cases h
            | some crossSection =>
              rw [hV] at h
              dsimp only at h
              refine ih line _ out r2 ?_ h
              intro x hx
              split at hx
              next hkeep =>
                rcases List.mem_append.mp hx with hx | hx
                · exact hacc x hx
                · have hx1 : x = ⟨energy, crossSection⟩ := by simpa using hx
                  rw [hx1]
                  rcases hkeep with hkeep | hkeep
                  · exact absurd ht hkeep
                  · exact hkeep
              next => exact hacc x hx

/-- Specification-side reference for the pass-through behaviour: the data loop
with the threshold filter removed, so that every parsed point is kept. -/
def dataLoopRaw (pf : String → Option ℚ) :
    String → List String → List CrossSectionPoint → DataRes
  | text, rest, data =>
    if startsDashes text then .dok data rest
    else
      match (fields text)[0]? with
      | none => .dpanic
      | some f0 =>
        match pf f0 with
        | none => .derr
        | some energy =>
          match (fields text)[1]? with
          | none => .dpanic
          | some f1 =>
            match pf f1 with
            | none => .derr
            | some crossSection =>
              match rest with
              | [] => .dpanic
              | line :: ls =>
                dataLoopRaw pf line ls (data ++ [⟨energy, crossSection⟩])

/-- For the non-threshold types the data loop keeps every parsed point: it
coincides with the unfiltered reference loop. -/
theorem dataLoop_passthrough (pf : String → Option ℚ) (t : CollisionType)
    (threshold : ℚ)
    (ht : t = .ELASTIC ∨ t = .EFFECTIVE ∨ t = .ATTACHMENT) :
    ∀ (rest : List String) (text : String) (data : List CrossSectionPoint),
    dataLoop pf t threshold text rest data = dataLoopRaw pf text rest data := by
  have hkeep : ∀ energy : ℚ,
      ¬(t = .IONIZATION ∨ t = .EXCITATION ∨ t = .ROTATION) ∨ threshold < energy := by
    intro energy
    left
    rcases ht with ht | ht | ht <;> subst ht <;> simp
  intro rest
  induction rest with
  | nil =>
    intro text data
    rw [dataLoop, dataLoopRaw]
  | cons line ls ih =>
    intro text data
    rw [dataLoop, dataLoopRaw]
    split
    · rfl
    · cases hf0 : (fields text)[0]? with
      | none => rfl
      | some f0 =>
        dsimp only
        cases hE : pf f0 with
        | none => rfl
        | some energy =>
          dsimp only
          cases hf1 : (fields text)[1]? with
          | none => rfl
          | some f1 =>
            dsimp only
            cases hV : pf f1 with
            | none => rfl
            | some crossSection =>
              dsimp only
              rw [if_pos (hkeep energy)]
              exact ih line (data ++ [⟨energy, crossSection⟩])

/-- A successful block records the parsed type and threshold. -/
theorem finishBlock_ok_type (pf : String → Option ℚ) (t : CollisionType)
    (massRatio threshold statWeightRatio lowerEnergy lowerStatWeight
      upperEnergy upperStatWeight : ℚ)
    (species text : String) (rest : List String) (c : Collision) (r2 : List String)
    (h : finishBlock pf t massRatio threshold statWeightRatio lowerEnergy
      lowerStatWeight upperEnergy upperStatWeight species text rest = .bok c r2) :
    c.type = t ∧ c.Threshold = threshold := by
  rw [finishBlock] at h
  cases hi : infoLoop text rest [] with
  | none => rw [hi] at h; cases h
  | some v =>
    obtain ⟨info, text2, rest2⟩ := v
    rw [hi] at h
    dsimp only at h
    cases hd : dataLoop pf t threshold text2 rest2 [] with
    | derr => rw [hd] at h; cases h
    | dpanic => rw [hd] at h; cases h
    | dok data rest3 =>
      rw [hd] at h
      dsimp only at h
      split at h
      · match data, h with
        | d0 :: tl, h =>
          cases h
          exact ⟨rfl, rfl⟩
      · cases h
        exact ⟨rfl, rfl⟩

/-- For a threshold-bearing type, a successful block has non-empty data whose
first point has value zero, given a non-negative float parser. -/
theorem finishBlock_ok_zero (pf : String → Option ℚ)
    (hpf : ∀ s q, pf s = some q → 0 ≤ q) (t : CollisionType)
    (ht : t = .IONIZATION ∨ t = .EXCITATION ∨ t = .ROTATION)
    (massRatio threshold statWeightRatio lowerEnergy lowerStatWeight
      upperEnergy upperStatWeight : ℚ)
    (species text : String) (rest : List String) (c : Collision) (r2 : List String)
    (h : finishBlock pf t massRatio threshold statWeightRatio lowerEnergy
      lowerStatWeight upperEnergy upperStatWeight species text rest = .bok c r2) :
    ∃ d0 tl, c.Data = d0 :: tl ∧ d0.Value = 0 := by
  rw [finishBlock] at h
  cases hi : infoLoop text rest [] with
  | none => rw [hi] at h; cases h
  | some v =>
    obtain ⟨info, text2, rest2⟩ := v
    rw [hi] at h
    dsimp only at h
    cases hd : dataLoop pf t threshold text2 rest2 [] with
    | derr => rw [hd] at h; cases h
    | dpanic => rw [hd] at h; cases h
    | dok data rest3 =>
      rw [hd] at h
      dsimp only at h
      rw [if_pos ht] at h
      have hnn : ∀ x ∈ data, 0 ≤ x.Value :=
        dataLoop_val_nonneg pf hpf t threshold rest2 text2 [] data rest3
          (by intro x hx; cases hx) hd
      match data, h, hnn with
      | d0 :: tl, h, hnn =>
        dsimp only at h
        by_cases hv : d0.Value > 0
        · rw [if_pos hv] at h
          cases h
          exact ⟨⟨threshold, 0⟩, d0 :: tl, rfl, rfl⟩
        · rw [if_neg hv] at h
          cases h
          exact ⟨d0, tl, rfl, le_antisymm (not_lt.mp hv) (hnn d0 (by simp))⟩

/-- For a threshold-bearing type, every data point of a successful block is
either strictly above the threshold in energy or is the synthetic point
`(threshold, 0)`. -/
theorem finishBlock_ok_energy (pf : String → Option ℚ) (t : CollisionType)
    (ht : t = .IONIZATION ∨ t = .EXCITATION ∨ t = .ROTATION)
    (massRatio threshold statWeightRatio lowerEnergy lowerStatWeight
      upperEnergy upperStatWeight : ℚ)
    (species text : String) (rest : List String) (c : Collision) (r2 : List String)
    (h : finishBlock pf t massRatio threshold statWeightRatio lowerEnergy
      lowerStatWeight upperEnergy upperStatWeight species text rest = .bok c r2) :
    ∀ x ∈ c.Data, threshold < x.Energy ∨ x = ⟨threshold, 0⟩ := by
  rw [finishBlock] at h
  cases hi : infoLoop text rest [] with
  | none => rw [hi] at h; cases h
  | some v =>
    obtain ⟨info, text2, rest2⟩ := v
    rw [hi] at h
    dsimp only at h
    cases hd : dataLoop pf t threshold text2 rest2 [] with
    | derr => rw [hd] at h; cases h
    | dpanic => rw [hd] at h; cases h
    | dok data rest3 =>
      rw [hd] at h
      dsimp only at h
      rw [if_pos ht] at h
      have hgt : ∀ x ∈ data, threshold < x.Energy :=
        dataLoop_energy_gt pf t threshold ht rest2 text2 [] data rest3
          (by intro x hx; cases hx) hd
      match data, h, hgt with
      | d0 :: tl, h, hgt =>
        dsimp only at h
        by_cases hv : d0.Value > 0
        · rw [if_pos hv] at h
          cases h
          intro x hx
          rcases List.mem_cons.mp hx with hx | hx
          · exact Or.inr hx
          · exact Or.inl (hgt x hx)
        · rw [if_neg hv] at h
          cases h
          intro x hx
          exact Or.inl (hgt x hx)

/-- A successful `parseBlock` arises from a successful `finishBlock` with the
same type. -/
theorem parseBlock_ok_finish (pf : String → Option ℚ) (t : CollisionType)
    (rest0 : List String) (c : Collision) (r2 : List String)
    (h : parseBlock pf t rest0 = .bok c r2) :
    ∃ massRatio threshold statWeightRatio lowerEnergy lowerStatWeight
      upperEnergy upperStatWeight species text rest,
      finishBlock pf t massRatio threshold statWeightRatio lowerEnergy
        lowerStatWeight upperEnergy upperStatWeight species text rest = .bok c r2 := by
  cases t <;> simp only [parseBlock] at h <;> (repeat' split at h) <;>
    first
    | cases h
    | exact ⟨_, _, _, _, _, _, _, _, _, _, h⟩

/-- C3 (confirmed): in every successfully loaded collection, every collision of
a threshold-bearing type (Ionization, Excitation, Rotation) has non-empty data
whose first point has value zero, provided the float parser only produces
non-negative values (the non-negative-input assumption of the claim). -/
theorem c3_zero_floor (pf : String → Option ℚ) (hpf : ∀ s q, pf s = some q → 0 ≤ q)
    (lines : List String) (colls : List Collision)
    (hok : LoadCrossSections pf lines = .ok colls) (c : Collision) (hc : c ∈ colls)
    (ht : c.type = .IONIZATION ∨ c.type = .EXCITATION ∨ c.type = .ROTATION) :
    ∃ d0 tl, c.Data = d0 :: tl ∧ d0.Value = 0 := by
  rw [LoadCrossSections] at hok
  rcases loadLoop_mem pf lines.length lines [] colls le_rfl hok c hc with hmem | ⟨t, rs, r2, hpb⟩
  · cases hmem
  · obtain ⟨mr, th, swr, lE, lSW, uE, uSW, sp, tx, rs2, hfb⟩ :=
      parseBlock_ok_finish pf t rs c r2 hpb
    have htype := (finishBlock_ok_type pf t mr th swr lE lSW uE uSW sp tx rs2 c r2 hfb).1
    have ht2 : t = .IONIZATION ∨ t = .EXCITATION ∨ t = .ROTATION := by
      rw [htype] at ht
      exact ht
    exact finishBlock_ok_zero pf hpf t ht2 mr th swr lE lSW uE uSW sp tx rs2 c r2 hfb

/-- Concrete input lines for the C3 and C4 witnesses. -/
def wLines : List String :=
  ["EXCITATION", "N2", "3 2", "ignore", "-----", "5 4", "-----"]

/-- The collision produced by loading `wLines`. -/
def wColl : Collision :=
  { type := .EXCITATION, MassRatio := 0, Species := "N2",
    Data := [⟨3, 0⟩, ⟨5, 4⟩], Threshold := 3, StatWeightRatio := 2,
    LowerEnergy := 0, LowerStatWeight := 0, UpperEnergy := 0,
    UpperStatWeight := 0, Info := [] }

theorem wLoad_eq : LoadCrossSections natQ? wLines = .ok [wColl] := by
  have hpb : parseBlock natQ? .EXCITATION ["N2", "3 2", "ignore", "-----", "5 4", "-----"]
      = .bok wColl [] := by
    decide
  rw [wLines, LoadCrossSections,
    loadLoop_block_ok natQ? [] "EXCITATION" _ "EXCITATION" .EXCITATION wColl []
      (by decide) (by decide) hpb, loadLoop_nil]
  simp

/-- Witness for C3 on a concrete input: the loaded excitation collision starts
with a zero-valued point. -/
theorem c3_zero_floor_witness : ∃ d0 tl, wColl.Data = d0 :: tl ∧ d0.Value = 0 :=
  c3_zero_floor natQ? natQ?_nonneg wLines [wColl] wLoad_eq wColl (by simp)
    (Or.inr (Or.inl rfl))

/-- C4 (confirmed): in every successfully loaded collection, every data point
of a threshold-bearing collision is either strictly above the collision's
threshold in energy or is the synthetic point `(Threshold, 0)`; and for the
non-threshold types (Elastic, Effective, Attachment) the data loop is a pure
pass-through, identical to the unfiltered reference loop. -/
theorem c4_threshold_truncation (pf : String → Option ℚ) (lines : List String)
    (colls : List Collision) (hok : LoadCrossSections pf lines = .ok colls) :
    (∀ c ∈ colls, (c.type = .IONIZATION ∨ c.type = .EXCITATION ∨ c.type = .ROTATION) →
      ∀ x ∈ c.Data, c.Threshold < x.Energy ∨ x = ⟨c.Threshold, 0⟩) ∧
    (∀ (t : CollisionType) (threshold : ℚ) (text : String) (rest : List String)
      (data : List CrossSectionPoint),
      (t = .ELASTIC ∨ t = .EFFECTIVE ∨ t = .ATTACHMENT) →
      dataLoop pf t threshold text rest data = dataLoopRaw pf text rest data) := by
  constructor
  · intro c hc ht
    rw [LoadCrossSections] at hok
    rcases loadLoop_mem pf lines.length lines [] colls le_rfl hok c hc with hmem | ⟨t, rs, r2, hpb⟩
    · cases hmem
    · obtain ⟨mr, th, swr, lE, lSW, uE, uSW, sp, tx, rs2, hfb⟩ :=
        parseBlock_ok_finish pf t rs c r2 hpb
      obtain ⟨htype, hth⟩ := finishBlock_ok_type pf t mr th swr lE lSW uE uSW sp tx rs2 c r2 hfb
      have ht2 : t = .IONIZATION ∨ t = .EXCITATION ∨ t = .ROTATION := by
        rw [htype] at ht
        exact ht
      have hq := finishBlock_ok_energy pf t ht2 mr th swr lE lSW uE uSW sp tx rs2 c r2 hfb
      rw [hth]
      exact hq
  · intro t threshold text rest data ht
    exact dataLoop_passthrough pf t threshold ht rest text data

/-- Witness for C4 on a concrete input: every point of the loaded excitation
collision is above the threshold or is the synthetic zero point. -/
theorem c4_threshold_truncation_witness :
    wColl.Threshold < (⟨5, 4⟩ : CrossSectionPoint).Energy ∨
      (⟨5, 4⟩ : CrossSectionPoint) = ⟨wColl.Threshold, 0⟩ :=
  (c4_threshold_truncation natQ? wLines [wColl] wLoad_eq).1 wColl (by simp)
    (Or.inr (Or.inl rfl)) ⟨5, 4⟩ (by decide)

/-- The data loop at the empty scanner text with no remaining lines panics
(the empty text has no fields), for every parser, type and threshold. -/
theorem dataLoop_empty_text (pf : String → Option ℚ) (t : CollisionType)
    (threshold : ℚ) (data : List CrossSectionPoint) :
    dataLoop pf t threshold "" [] data = .dpanic := by
  rw [dataLoop]
  rw [if_neg (by decide : ¬ (startsDashes "" = true))]
  rw [(by decide : (fields "")[0]? = (none : Option String))]

/-- Appending further input does not change a data-loop run that completed
successfully: the five-dash line ending the loop is left unconsumed, so the
parsed points and the leftover lines only gain the appended suffix. -/
theorem dataLoop_append (pf : String → Option ℚ) (t : CollisionType)
    (threshold : ℚ) (more : List String) :
    ∀ (rest : List String) (text : String) (data out : List CrossSectionPoint)
      (r2 : List String),
    dataLoop pf t threshold text rest data = .dok out r2 →
    dataLoop pf t threshold text (rest ++ more) data = .dok out (r2 ++ more) := by
  intro rest
  induction rest with
  | nil =>
    intro text data out r2 h
    simp only [List.nil_append]
    rw [dataLoop] at h
    rw [dataLoop]
    split at h
    next hd =>
      cases h
      rw [if_pos hd]
      simp
    next hd =>
      rw [if_neg hd]
      cases hf0 : (fields text)[0]? with
      | none => rw [hf0] at h; cases h
      | some f0 =>
        rw [hf0] at h
        dsimp only at h
        cases hE : pf f0 with
        | none => rw [hE] at h; cases h
        | some energy =>
          rw [hE] at h
          dsimp only at h
          cases hf1 : (fields text)[1]? with
          | none => rw [hf1] at h; cases h
          | some f1 =>
            rw [hf1] at h
            dsimp only at h
            cases hV : pf f1 with
            | none => rw [hV] at h; cases h
            | some crossSection =>
              rw [hV] at h
              dsimp only at h
              cases h
  | cons line ls ih =>
    intro text data out r2 h
    simp only [List.cons_append]
    rw [dataLoop] at h
    rw [dataLoop]
    split at h
    next hd =>
      cases h
      rw [if_pos hd]
      simp
    next hd =>
      rw [if_neg hd]
      cases hf0 : (fields text)[0]? with
      | none => rw [hf0] at h; cases h
      | some f0 =>
        rw [hf0] at h
        dsimp only at h ⊢
        cases hE : pf f0 with
        | none => rw [hE] at h; cases h
        | some energy =>
          rw [hE] at h
          dsimp only at h ⊢
          cases hf1 : (fields text)[1]? with
          | none => rw [hf1] at h; cases h
          | some f1 =>
            rw [hf1] at h
            dsimp only at h ⊢
            cases hV : pf f1 with
            | none => rw [hV] at h; cases h
            | some crossSection =>
              rw [hV] at h
              dsimp only at h ⊢
              exact ih line _ out r2 h

/-- Appending further input to a metadata loop that completed successfully
either shifts the leftover lines by the appended suffix, or the loop had
consumed the whole input with its final scan (current text `""`, nothing
left), which a successful block rules out. -/
theorem infoLoop_append (more : List String) :
    ∀ (rest : List String) (text : String) (info i2 : List (String × String))
      (t2 : String) (r2 : List String),
    infoLoop text rest info = some (i2, t2, r2) →
    infoLoop text (rest ++ more) info = some (i2, t2, r2 ++ more) ∨
      (t2 = "" ∧ r2 = []) := by
  intro rest
  induction rest with
  | nil =>
    intro text info i2 t2 r2 h
    rw [infoLoop] at h
    split at h
    · cases h
      exact Or.inr ⟨rfl, rfl⟩
    · cases h
  | cons line ls ih =>
    intro text info i2 t2 r2 h
    simp only [List.cons_append]
    rw [infoLoop] at h
    rw [infoLoop]
    split at h
    next hd =>
      rw [if_pos hd]
      cases h
      left
      rfl
    next hd =>
      rw [if_neg hd]
      dsimp only at h ⊢
      exact ih line _ i2 t2 r2 h

/-- Appending further input does not change a block tail that completed
successfully. -/
theorem finishBlock_append (pf : String → Option ℚ) (t : CollisionType)
    (massRatio threshold statWeightRatio lowerEnergy lowerStatWeight
      upperEnergy upperStatWeight : ℚ)
    (species text : String) (more rest : List String) (c : Collision)
    (r2 : List String)
    (h : finishBlock pf t massRatio threshold statWeightRatio lowerEnergy
      lowerStatWeight upperEnergy upperStatWeight species text rest = .bok c r2) :
    finishBlock pf t massRatio threshold statWeightRatio lowerEnergy
      lowerStatWeight upperEnergy upperStatWeight species text (rest ++ more)
      = .bok c (r2 ++ more) := by
  rw [finishBlock] at h
  rw [finishBlock]
  cases hi : infoLoop text rest [] with
  | none => rw [hi] at h; cases h
  | some v =>
    obtain ⟨info, text2, rest2⟩ := v
    rw [hi] at h
    dsimp only at h
    cases hd : dataLoop pf t threshold text2 rest2 [] with
    | derr => rw [hd] at h; cases h
    | dpanic => rw [hd] at h; cases h
    | dok data rest3 =>
      rw [hd] at h
      dsimp only at h
      rcases infoLoop_append more rest text [] info text2 rest2 hi with hA | ⟨ht2, hr2⟩
      · rw [hA]
        dsimp only
        rw [dataLoop_append pf t threshold more rest2 text2 [] data rest3 hd]
        dsimp only
        split at h
        next hthr =>
          rw [if_pos hthr]
          match data, h with
          | d0 :: tl, h =>
            dsimp only at h ⊢
            by_cases hv : d0.Value > 0
            · rw [if_pos hv] at h ⊢
              cases h
              rfl
            · rw [if_neg hv] at h ⊢
              cases h
              rfl
        next hthr =>
          rw [if_neg hthr]
          cases h
          rfl
      · subst ht2
        subst hr2
        rw [dataLoop_empty_text pf t threshold []] at hd
        cases hd

/-- Appending further input does not change a block that parsed successfully:
the block consumes the same lines and the leftover only gains the suffix. -/
theorem parseBlock_append (pf : String → Option ℚ) (t : CollisionType)
    (more : List String) (rest0 : List String) (c : Collision) (r2 : List String)
    (h : parseBlock pf t rest0 = .bok c r2) :
    parseBlock pf t (rest0 ++ more) = .bok c (r2 ++ more) := by
  cases rest0 with
  | nil =>
    exfalso
    cases t <;>
      simp [parseBlock, scanStep, trimSpaces, fields, fieldsGo, finishBlock,
        infoLoop, startsDashes, goCut, breakAtChar] at h
  | cons a rest1 =>
    cases rest1 with
    | nil =>
      exfalso
      cases t <;>
        simp [parseBlock, scanStep, trimSpaces, fields, fieldsGo, finishBlock,
          infoLoop, startsDashes, goCut, breakAtChar] at h
    | cons b rest' =>
      cases t with
      | ELASTIC =>
        simp only [parseBlock, scanStep, List.cons_append] at h ⊢
        cases hp0 : (fields (trimSpaces b))[0]? with
        | none => rw [hp0] at h; cases h
        | some p0 =>
          rw [hp0] at h
          dsimp only at h ⊢
          cases hq : pf p0 with
          | none => rw [hq] at h; cases h
          | some massRatio =>
            rw [hq] at h
            dsimp only at h ⊢
            exact finishBlock_append pf _ _ _ _ _ _ _ _ _ _ more rest' c r2 h
      | EFFECTIVE =>
        simp only [parseBlock, scanStep, List.cons_append] at h ⊢
        cases hp0 : (fields (trimSpaces b))[0]? with
        | none => rw [hp0] at h; cases h
        | some p0 =>
          rw [hp0] at h
          dsimp only at h ⊢
          cases hq : pf p0 with
          | none => rw [hq] at h; cases h
          | some massRatio =>
            rw [hq] at h
            dsimp only at h ⊢
            exact finishBlock_append pf _ _ _ _ _ _ _ _ _ _ more rest' c r2 h
      | IONIZATION =>
        simp only [parseBlock, scanStep, List.cons_append] at h ⊢
        cases hp0 : (fields (trimSpaces b))[0]? with
        | none => rw [hp0] at h; cases h
        | some p0 =>
          rw [hp0] at h
          dsimp only at h ⊢
          cases hq : pf p0 with
          | none => rw [hq] at h; cases h
          | some threshold =>
            rw [hq] at h
            dsimp only at h ⊢
            exact finishBlock_append pf _ _ _ _ _ _ _ _ _ _ more rest' c r2 h
      | ATTACHMENT =>
        simp only [parseBlock, scanStep, List.cons_append] at h ⊢
        exact finishBlock_append pf _ _ _ _ _ _ _ _ _ _ more rest' c r2 h
      | EXCITATION =>
        simp only [parseBlock, scanStep, List.cons_append] at h ⊢
        cases hp0 : (fields (trimSpaces b))[0]? with
        | none => rw [hp0] at h; cases h
        | some p0 =>
          rw [hp0] at h
          dsimp only at h ⊢
          cases hq : pf p0 with
          | none => rw [hq] at h; cases h
          | some threshold =>
            rw [hq] at h
            dsimp only at h ⊢
            by_cases hlen : (fields (trimSpaces b)).length > 1
            · rw [if_pos hlen] at h ⊢
              cases hp1 : (fields (trimSpaces b))[1]? with
              | none => rw [hp1] at h; cases h
              | some p1 =>
                rw [hp1] at h
                dsimp only at h ⊢
                cases hq1 : pf p1 with
                | none => rw [hq1] at h; cases h
                | some statWeightRatio =>
                  rw [hq1] at h
                  dsimp only at h ⊢
                  exact finishBlock_append pf _ _ _ _ _ _ _ _ _ _ more rest' c r2 h
            · rw [if_neg hlen] at h ⊢
              exact finishBlock_append pf _ _ _ _ _ _ _ _ _ _ more rest' c r2 h
      | ROTATION =>
        simp only [parseBlock, scanStep, List.cons_append] at h ⊢
        cases hp0 : (fields (trimSpaces b))[0]? with
        | none => rw [hp0] at h; cases h
        | some p0 =>
          rw [hp0] at h
          dsimp only at h ⊢
          cases hq : pf p0 with
          | none => rw [hq] at h; cases h
          | some lowerEnergy =>
            rw [hq] at h
            dsimp only at h ⊢
            cases hp1 : (fields (trimSpaces b))[1]? with
            | none => rw [hp1] at h; cases h
            | some p1 =>
              rw [hp1] at h
              dsimp only at h ⊢
              cases hq1 : pf p1 with
              | none => rw [hq1] at h; cases h
              | some lowerStatWeight =>
                rw [hq1] at h
                dsimp only at h ⊢
                cases rest' with
                | nil =>
                  exfalso
                  simp [scanStep, fields, fieldsGo] at h
                | cons c' rest'' =>
                  simp only [scanStep, List.cons_append] at h ⊢
                  cases hr0 : (fields c')[0]? with
                  | none => rw [hr0] at h; cases h
                  | some q0 =>
                    rw [hr0] at h
                    dsimp only at h ⊢
                    cases hs0 : pf q0 with
                    | none => rw [hs0] at h; cases h
                    | some upperEnergy =>
                      rw [hs0] at h
                      dsimp only at h ⊢
                      cases hr1 : (fields c')[1]? with
                      | none => rw [hr1] at h; cases h
                      | some q1 =>
                        rw [hr1] at h
                        dsimp only at h ⊢
                        cases hs1 : pf q1 with
                        | none => rw [hs1] at h; cases h
                        | some upperStatWeight =>
                          rw [hs1] at h
                          dsimp only at h ⊢
                          exact finishBlock_append pf _ _ _ _ _ _ _ _ _ _ more rest'' c r2 h

/-- Appending further input after an input that loads successfully resumes the
top-level scanning loop with the already-parsed collisions as accumulator. -/
theorem loadLoop_append (pf : String → Option ℚ) (more : List String) :
    ∀ (n : Nat) (pre : List String) (acc out : List Collision),
    pre.length ≤ n → loadLoop pf acc pre = .ok out →
    loadLoop pf acc (pre ++ more) = loadLoop pf out more := by
  intro n
  induction n with
  | zero =>
    intro pre acc out hn h
    have hpre : pre = [] := List.length_eq_zero.mp (by omega)
    subst hpre
    rw [loadLoop_nil] at h
    cases h
    rfl
  | succ n ih =>
    intro pre acc out hn h
    cases pre with
    | nil =>
      rw [loadLoop_nil] at h
      cases h
      rfl
    | cons line ls =>
      rw [loadLoop] at h
      simp only [List.cons_append]
      rw [loadLoop]
      cases hf : (fields line)[0]? with
      | none =>
        rw [hf] at h
        dsimp only at h ⊢
        exact ih ls acc out (by simp at hn; omega) h
      | some tok =>
        rw [hf] at h
        dsimp only at h ⊢
        cases htk : typeOfKeyword tok with
        | none =>
          rw [htk] at h
          dsimp only at h ⊢
          exact ih ls acc out (by simp at hn; omega) h
        | some t =>
          rw [htk] at h
          dsimp only at h ⊢
          split at h
          next c2 rest2 heq =>
            have happ := parseBlock_append pf t more ls c2 rest2 heq
            have hlen := parseBlock_rest_le pf t ls c2 rest2 heq
            split
            next heq2 =>
              rw [happ] at heq2
              cases heq2
              exact ih rest2 (acc ++ [c2]) out (by simp at hn; omega) h
            next heq2 => rw [happ] at heq2; cases heq2
            next heq2 => rw [happ] at heq2; cases heq2
            next heq2 => rw [happ] at heq2; cases heq2
          next => cases h
          next => cases h
          next => cases h

/-- Loading a successfully parsed input followed by more lines resumes the
scan on the extra lines with the parsed collection accumulated. -/
theorem LoadCrossSections_append (pf : String → Option ℚ) (pre more : List String)
    (colls : List Collision) (h : LoadCrossSections pf pre = .ok colls) :
    LoadCrossSections pf (pre ++ more) = loadLoop pf colls more := by
  rw [LoadCrossSections] at h
  rw [LoadCrossSections]
  exact loadLoop_append pf more pre.length pre [] colls le_rfl h

/-- C7 (confirmed): malformed numeric input aborts the load with no partial
collection, universally.  First: a data-table line whose first or second
whitespace-delimited field fails to parse makes the data loop return the error
outcome, for every parser, type, threshold, accumulated data and following
lines.  Second: a data-loop error makes the whole block fail with the error
outcome.  Third: for every parser, every input prefix that loads successfully
into any collection, every recognised block header and every block body that
fails with a parse error, the entire load returns the bare error outcome
(Go's `return nil, err`) — the collisions parsed from the prefix are
discarded, so no partial collection is ever returned. -/
theorem c7_malformed_numeric_aborts (pf : String → Option ℚ) :
    (∀ (t : CollisionType) (threshold : ℚ) (text : String) (rest : List String)
        (data : List CrossSectionPoint) (f0 : String),
      startsDashes text = false → (fields text)[0]? = some f0 →
      (pf f0 = none ∨
        ∃ q0 f1, pf f0 = some q0 ∧ (fields text)[1]? = some f1 ∧ pf f1 = none) →
      dataLoop pf t threshold text rest data = .derr) ∧
    (∀ (t : CollisionType) (massRatio threshold statWeightRatio lowerEnergy
        lowerStatWeight upperEnergy upperStatWeight : ℚ)
        (species text : String) (rest : List String)
        (info : List (String × String)) (text2 : String) (rest2 : List String),
      infoLoop text rest [] = some (info, text2, rest2) →
      dataLoop pf t threshold text2 rest2 [] = .derr →
      finishBlock pf t massRatio threshold statWeightRatio lowerEnergy
        lowerStatWeight upperEnergy upperStatWeight species text rest = .berr) ∧
    (∀ (pre : List String) (colls : List Collision) (header tok : String)
        (t : CollisionType) (body : List String),
      LoadCrossSections pf pre = .ok colls →
      (fields header)[0]? = some tok → typeOfKeyword tok = some t →
      parseBlock pf t body = .berr →
      LoadCrossSections pf (pre ++ header :: body) = .err) := by
  refine ⟨?_, ?_, ?_⟩
  · intro t threshold text rest data f0 hnd hf0 hbad
    rw [dataLoop]
    rw [if_neg (by simp [hnd])]
    rw [hf0]
    dsimp only
    rcases hbad with hbad | ⟨q0, f1, hq0, hf1, hbad⟩
    · rw [hbad]
    · rw [hq0]
      dsimp only
      rw [hf1]
      dsimp only
      rw [hbad]
  · intro t massRatio threshold statWeightRatio lowerEnergy lowerStatWeight
      upperEnergy upperStatWeight species text rest info text2 rest2 hinfo hdata
    rw [finishBlock, hinfo]
    dsimp only
    rw [hdata]
  · intro pre colls header tok t body hpre hheader htok hbad
    rw [LoadCrossSections_append pf pre (header :: body) colls hpre]
    exact loadLoop_block_err pf colls header body tok t hheader htok hbad

/-- The collision parsed from the well-formed prefix of the C7 witness. -/
def c7Coll : Collision :=
  { type := .ELASTIC, MassRatio := 1, Species := "Ar", Data := [⟨2, 3⟩],
    Threshold := 0, StatWeightRatio := 1, LowerEnergy := 0, LowerStatWeight := 0,
    UpperEnergy := 0, UpperStatWeight := 0, Info := [] }

/-- Witness for C7: a complete `ELASTIC` block loads successfully, then an
`IONIZATION` block with a non-numeric token in its data table makes the whole
load return the bare error. -/
theorem c7_malformed_numeric_aborts_witness :
    LoadCrossSections natQ?
      (["ELASTIC", "Ar", "1", "-----", "2 3", "-----"]
        ++ "IONIZATION" :: ["Ar", "5", "-----", "7 zzz", "-----"]) = .err := by
  have hpre : LoadCrossSections natQ? ["ELASTIC", "Ar", "1", "-----", "2 3", "-----"]
      = .ok [c7Coll] := by
    have hpb : parseBlock natQ? .ELASTIC ["Ar", "1", "-----", "2 3", "-----"]
        = .bok c7Coll [] := by
      decide
    rw [LoadCrossSections, loadLoop_block_ok natQ? [] "ELASTIC" _ "ELASTIC" .ELASTIC
      c7Coll [] (by decide) (by decide) hpb, loadLoop_nil]
    simp
  exact (c7_malformed_numeric_aborts natQ?).2.2
    ["ELASTIC", "Ar", "1", "-----", "2 3", "-----"] [c7Coll] "IONIZATION"
    "IONIZATION" .IONIZATION ["Ar", "5", "-----", "7 zzz", "-----"] hpre
    (by decide) (by decide) (by decide)

/-- C8: refuted as stated.  On an `IONIZATION` block whose entire data table
lies at or below the threshold (threshold 10, single point at energy 5), the
filtered sequence is empty and the zero-prepend step indexes `data[0]`: the
code panics (index out of range) instead of returning an error. -/
theorem c8_empty_after_filter_panics :
    LoadCrossSections natQ? ["IONIZATION", "Ar", "10", "-----", "5 1", "-----"]
      = .panics ∧ LoadResult.panics ≠ LoadResult.err := by
  constructor
  · have hpb : parseBlock natQ? .IONIZATION ["Ar", "10", "-----", "5 1", "-----"]
        = .bpanic := by
      decide
    rw [LoadCrossSections, loadLoop_block_panic natQ? [] "IONIZATION"
      ["Ar", "10", "-----", "5 1", "-----"] "IONIZATION" .IONIZATION
      (by decide) (by decide) hpb]
  · intro h
    cases h

/-- C9: refuted as stated.  A recognised block truncated by end of input does
not produce an error: truncation inside the data section panics (the empty
text at EOF has no fields and `crossSectionPoint[0]` is out of range), and
truncation inside the metadata section loops forever (at EOF the scanner text
stays `""`, which never gains the five-dash terminator). -/
theorem c9_truncated_block_not_error :
    LoadCrossSections natQ? ["IONIZATION", "Ar", "10", "-----", "5 1"] = .panics ∧
    LoadCrossSections natQ? ["IONIZATION", "Ar", "10", "k: v"] = .hangs := by
  constructor
  · have hpb : parseBlock natQ? .IONIZATION ["Ar", "10", "-----", "5 1"] = .bpanic := by
      decide
    rw [LoadCrossSections, loadLoop_block_panic natQ? [] "IONIZATION"
      ["Ar", "10", "-----", "5 1"] "IONIZATION" .IONIZATION
      (by decide) (by decide) hpb]
  · have hpb : parseBlock natQ? .IONIZATION ["Ar", "10", "k: v"] = .bhang := by
      decide
    rw [LoadCrossSections, loadLoop_block_hang natQ? [] "IONIZATION"
      ["Ar", "10", "k: v"] "IONIZATION" .IONIZATION
      (by decide) (by decide) hpb]

end Lxgata
